import Mathlib

/-!
# Verification of the MFS trends data pipeline

Shallow embedding, in Lean 4, of the data-normalization and metrics
pipeline of the `mfs-trends-bd` repository:

* `src/etl.py`     — header normalization (`normalize_columns`) and the
  tidy stage (`tidy`): reshaping, value cleaning, row filtering, unit
  conversion;
* `src/fetch.py`   — the manual-override merge
  (`_append_manual_if_present`);
* `src/metrics.py` — growth metrics (`add_growth`) and the seasonal
  anomaly detector (`seasonal_anomaly`).

Modelling conventions:

* Python strings are modelled as `List Nat` (Unicode code points), so
  that lower-casing, stripping and character filtering are executable
  and proof-friendly.
* Python floats are modelled as `ℚ`.  `NaN` is modelled by `Option`
  (a missing value), matching how pandas treats `NaN` in the operations
  the pipeline uses.  Floating-point rounding and infinities are outside
  the model; theorems that depend on exact values therefore carry
  explicit non-zero hypotheses where a float division by zero could
  occur in the source.
* pandas cells are an inductive `Cell` (string, number, datetime or
  missing).
* Calls into external libraries that the repository does not define
  (pandas `to_numeric` / `to_datetime` string parsing, `str`
  conversion of floats and datetimes, and the statsmodels `STL`
  decomposition) are abstract parameters (`Ext`, or an explicit
  function argument), so every theorem quantifies over their behaviour.
* Python exceptions are modelled with `Except Unit`: `Except.error ()`
  is an exception propagating out of the modelled function, and code
  that has no `try/except` around a fallible operation propagates the
  error, exactly as the source does.
-/

namespace MFS

/-- Code points of a string literal; used to write concrete Python strings. -/
def codes (s : String) : List Nat := s.data.map Char.toNat

/-- A pandas cell: a string, a float, a datetime, or a missing value (`NaN`). -/
inductive Cell where
  | str (s : List Nat)
  | num (q : ℚ)
  | date (d : ℤ)
  | missing
deriving DecidableEq, Repr

/-! ## Anomaly detector (`src/metrics.py`, `seasonal_anomaly`) -/

/-- `fillna(method="ffill")` on a float series: each missing value is
replaced by the closest earlier non-missing value; leading missing
values stay missing.  `acc` is the last value seen so far. -/
def ffillAux : Option ℚ → List (Option ℚ) → List (Option ℚ)
  | _, [] => []
  | acc, none :: rest => acc :: ffillAux acc rest
  | _, some q :: rest => some q :: ffillAux (some q) rest

/-- `series.astype(float).fillna(method="ffill")` from `seasonal_anomaly`. -/
def ffill (l : List (Option ℚ)) : List (Option ℚ) := ffillAux none l

/--
`seasonal_anomaly` from `src/metrics.py`.

`stl` is the external `STL(s, period=12, robust=True).fit()` call from
statsmodels, returning the residual component; it is a parameter of the
model and may fail (`Except.error ()` models an exception raised by the
library).  The source has no `try/except` around it, so a failure
propagates.

The residual z-score test `|resid - mean| / std(ddof=0) > 2` is
expressed without square roots as `(resid - mean)^2 * n > 4 * Σ (resid - mean)^2`,
which is equivalent for a positive standard deviation and, like the
source (where `0/0` is `NaN` and `NaN > 2` is `False`), yields `false`
everywhere when the standard deviation is zero.
-/
def seasonal_anomaly (stl : List (Option ℚ) → Except Unit (List ℚ))
    (series : List (Option ℚ)) : Except Unit (List Bool) :=
  let s := ffill series
  if s.length < 24 then
    Except.ok (List.replicate s.length false)
  else
    match stl s with
    | Except.error e => Except.error e
    | Except.ok resid =>
      let n : ℚ := resid.length
      let mean : ℚ := resid.sum / n
      let varsum : ℚ := (resid.map (fun r => (r - mean) ^ 2)).sum
      Except.ok (resid.map (fun r => decide ((r - mean) ^ 2 * n > 4 * varsum)))

theorem ffillAux_length (acc : Option ℚ) (l : List (Option ℚ)) :
    (ffillAux acc l).length = l.length := by
  induction l generalizing acc with
  | nil => rfl
  | cons h t ih =>
    cases h with
    | none => simp [ffillAux, ih]
    | some q => simp [ffillAux, ih]

theorem ffill_length (l : List (Option ℚ)) : (ffill l).length = l.length :=
  ffillAux_length none l

/-- A concrete instantiation of the abstract STL decomposition,
consistent with statsmodels: `STL` raises (here: `Except.error ()`) when
the input series contains a `NaN`, which happens exactly when the
forward-filled series still has leading missing values. -/
def stlFailNaN (s : List (Option ℚ)) : Except Unit (List ℚ) :=
  if s.any (fun o => o.isNone) then Except.error ()
  else Except.ok (s.map (fun o => o.getD 0))

/-- A 24-point series whose first value is missing; after forward fill
the leading `NaN` remains, and the real STL raises on it. -/
def seriesNaN24 : List (Option ℚ) := none :: List.replicate 23 (some 1)

/-- A 25-point series of the same kind, used for the amended claim's witness. -/
def seriesNaN25 : List (Option ℚ) := none :: List.replicate 24 (some 2)

/-- C3, counterexample: on a concrete 24-observation series whose
decomposition fails (modelled by `stlFailNaN`, which raises exactly when
the filled series still contains a missing value, as statsmodels `STL`
does), `seasonal_anomaly` propagates the error instead of returning
all-`false` flags — the claimed `try/except` does not exist in the code. -/
theorem C3_counterexample :
    seasonal_anomaly stlFailNaN seriesNaN24 = Except.error () := by rfl

/-- C3, amended: `seasonal_anomaly` contains no exception handling.  For
every series of 24 or more observations, if the STL decomposition fails
on the forward-filled series then the failure propagates out of
`seasonal_anomaly`; only series shorter than 24 observations are
guaranteed all-`false` flags. -/
theorem C3_decomposition_failure_propagates
    (stl : List (Option ℚ) → Except Unit (List ℚ))
    (series : List (Option ℚ)) (e : Unit)
    (hlen : 24 ≤ series.length)
    (hfail : stl (ffill series) = Except.error e) :
    seasonal_anomaly stl series = Except.error e := by
  have h1 : (ffill series).length = series.length := ffill_length series
  have h2 : ¬ (ffill series).length < 24 := by omega
  simp only [seasonal_anomaly]
  rw [if_neg h2, hfail]

/-- Witness for `C3_decomposition_failure_propagates` at a concrete
25-point series. -/
theorem C3_decomposition_failure_propagates_witness :
    seasonal_anomaly stlFailNaN seriesNaN25 = Except.error () :=
  C3_decomposition_failure_propagates stlFailNaN seriesNaN25 ()
    (by decide) (by rfl)

/-- C6: a series with 23 or fewer observations yields all-`false` flags,
whatever its values and whatever the decomposition would do. -/
theorem C6_short_series_never_flagged
    (stl : List (Option ℚ) → Except Unit (List ℚ))
    (series : List (Option ℚ)) (h : series.length ≤ 23) :
    seasonal_anomaly stl series = Except.ok (List.replicate series.length false) := by
  have h1 : (ffill series).length = series.length := ffill_length series
  have h2 : (ffill series).length < 24 := by omega
  simp only [seasonal_anomaly]
  rw [if_pos h2, h1]

/-- Witness for `C6_short_series_never_flagged`: a concrete short series
with wild values and a decomposition that would fail if it were reached. -/
theorem C6_short_series_never_flagged_witness :
    seasonal_anomaly (fun _ => Except.error ())
      [some 1000000, none, some (-5), some 0] =
      Except.ok (List.replicate
        ([some (1000000 : ℚ), none, some (-5), some 0].length) false) :=
  C6_short_series_never_flagged (fun _ => Except.error ())
    [some 1000000, none, some (-5), some 0] (by decide)

/-! ## Python string primitives

Strings are lists of code points.  `lowerC`/`isSpaceC` model `str.lower`
and the whitespace class of `str.strip` for the characters that occur in
this pipeline (ASCII letters and whitespace). -/

/-- `str.lower` on one code point (ASCII). -/
def lowerC (c : Nat) : Nat := if 65 ≤ c ∧ c ≤ 90 then c + 32 else c

/-- `str.lower` on a string. -/
def lowerS (l : List Nat) : List Nat := l.map lowerC

/-- Python `str.strip` whitespace class (space, tab, newline, CR, VT, FF). -/
def isSpaceC (c : Nat) : Bool := c = 32 || c = 9 || c = 10 || c = 13 || c = 11 || c = 12

/-- Leading-whitespace removal. -/
def lstripS (l : List Nat) : List Nat := l.dropWhile isSpaceC

/-- Trailing-whitespace removal. -/
def rstripS : List Nat → List Nat
  | [] => []
  | c :: cs =>
    let r := rstripS cs
    if r.isEmpty && isSpaceC c then [] else c :: r

/-- Python `str.strip`. -/
def stripS (l : List Nat) : List Nat := rstripS (lstripS l)

/-! ## External library operations

The pipeline calls pandas and statsmodels for parsing and conversion.
Those libraries are not part of this repository, so their string-level
behaviour is kept abstract: every theorem quantifies over an `Ext`. -/

/-- Abstract behaviour of the external pandas conversions used by the
pipeline.  A `none`/failure result models `NaN` (for coercing variants)
or a raised exception (for strict variants). -/
structure Ext where
  /-- `pd.to_numeric(errors="coerce")` on a string. -/
  parseNum : List Nat → Option ℚ
  /-- `str()` of a float (`astype(str)`). -/
  numRepr : ℚ → List Nat
  /-- `str()` of a datetime. -/
  dateRepr : ℤ → List Nat
  /-- `pd.to_datetime(errors="coerce", dayfirst=True)` on a string. -/
  parseDateStr : List Nat → Option ℤ
  /-- `pd.to_datetime(errors="coerce", dayfirst=True)` on a float. -/
  parseDateNum : ℚ → Option ℤ
  /-- `pd.to_datetime(errors="coerce")` on a synthesized `"<year>-01-01"` string. -/
  parseYearStr : List Nat → Option ℤ
  /-- raising `pd.to_datetime` on a string; `none` models a raised exception. -/
  strictDateStr : List Nat → Option ℤ
  /-- raising `pd.to_datetime` on a float; `none` models a raised exception. -/
  strictDateNum : ℚ → Option ℤ
  /-- `pd.to_numeric(errors="coerce")` on a datetime. -/
  numOfDate : ℤ → Option ℚ

/-- `astype(str)` on one cell: strings pass through, `NaN` prints as `"nan"`. -/
def cellToStr (ops : Ext) : Cell → List Nat
  | Cell.str s => s
  | Cell.num q => ops.numRepr q
  | Cell.date d => ops.dateRepr d
  | Cell.missing => codes "nan"

/-- `pd.to_numeric(errors="coerce")` on one cell. -/
def toNumCoerce (ops : Ext) : Cell → Option ℚ
  | Cell.str s => ops.parseNum s
  | Cell.num q => some q
  | Cell.date d => ops.numOfDate d
  | Cell.missing => none

/-- `pd.to_datetime(errors="coerce", dayfirst=True)` on one cell. -/
def toDateCoerce (ops : Ext) : Cell → Option ℤ
  | Cell.str s => ops.parseDateStr s
  | Cell.num q => ops.parseDateNum q
  | Cell.date d => some d
  | Cell.missing => none

/-- Raising `pd.to_datetime` on one cell: `Except.error ()` is a raised
exception; `Except.ok none` is `NaT` (missing input does not raise). -/
def toDateStrict (ops : Ext) : Cell → Except Unit (Option ℤ)
  | Cell.str s =>
    match ops.strictDateStr s with
    | some d => Except.ok (some d)
    | none => Except.error ()
  | Cell.num q =>
    match ops.strictDateNum q with
    | some d => Except.ok (some d)
    | none => Except.error ()
  | Cell.date d => Except.ok (some d)
  | Cell.missing => Except.ok none

def isErrD (x : Except Unit (Option ℤ)) : Bool :=
  match x with
  | Except.error _ => true
  | Except.ok _ => false

def errToNone (x : Except Unit (Option ℤ)) : Option ℤ :=
  match x with
  | Except.error _ => none
  | Except.ok v => v

/-! ## Tables (pandas DataFrames) -/

/-- A DataFrame column: a header (possibly `None`) and its cells. -/
structure Col where
  name : Option (List Nat)
  cells : List Cell
deriving DecidableEq, Repr

/-- A DataFrame, column-major.  Real DataFrames are rectangular; cells
beyond a column's length read as missing (`cellAt`). -/
abbrev PTable := List Col

def nameStr (c : Col) : List Nat := c.name.getD []

def nrows (t : PTable) : Nat := t.foldr (fun c m => max c.cells.length m) 0

def cellAt (c : Col) (i : Nat) : Cell := c.cells.getD i Cell.missing

/-! ## Manual override merge (`src/fetch.py`, `_append_manual_if_present`) -/

/-- A tidy record `(month, category, amount_bdt)`.  `month` is `none`
for `NaT`. -/
structure Rec where
  month : Option ℤ
  category : List Nat
  amount : ℚ
deriving DecidableEq, Repr

def recKey (r : Rec) : Option ℤ × List Nat := (r.month, r.category)

/-- `drop_duplicates(subset=["month", "category"], keep="last")`: a row
survives exactly when no later row has the same `(month, category)` key;
surviving rows keep their relative order. -/
def keepLast : List Rec → List Rec
  | [] => []
  | r :: rs =>
    if rs.any (fun x => recKey x = recKey r) then keepLast rs
    else r :: keepLast rs

/-- Lexicographic comparison of strings-as-code-point-lists. -/
def lexLe : List Nat → List Nat → Bool
  | [], _ => true
  | _ :: _, [] => false
  | a :: as, b :: bs => if a < b then true else if b < a then false else lexLe as bs

/-- Month ordering used by `sort_values`: `NaT` sorts last. -/
def optMonthLe : Option ℤ → Option ℤ → Bool
  | none, none => true
  | none, some _ => false
  | some _, none => true
  | some a, some b => a ≤ b

/-- `sort_values(["month", "category"])` comparison. -/
def recLE (a b : Rec) : Bool :=
  if a.month = b.month then lexLe a.category b.category
  else optMonthLe a.month b.month

/-- Insert into a sorted list (stable: goes after equal elements). -/
def insertSorted {α : Type} (le : α → α → Bool) (r : α) : List α → List α
  | [] => [r]
  | x :: xs => if le r x && !le x r then r :: x :: xs else x :: insertSorted le r xs

/-- Insertion sort, modelling `sort_values` by its contract (a
permutation of the rows ordered by the sort key). -/
def sortBy {α : Type} (le : α → α → Bool) : List α → List α
  | [] => []
  | x :: xs => insertSorted le x (sortBy le xs)

theorem insertSorted_perm {α : Type} (le : α → α → Bool) (r : α) (l : List α) :
    (insertSorted le r l).Perm (r :: l) := by
  induction l with
  | nil => exact List.Perm.refl _
  | cons x xs ih =>
    by_cases h : (le r x && !le x r) = true
    · simp [insertSorted, h]
    · rw [show insertSorted le r (x :: xs) = x :: insertSorted le r xs by
        simp [insertSorted, h]]
      exact (ih.cons x).trans (List.Perm.swap r x xs)

theorem sortBy_perm {α : Type} (le : α → α → Bool) (l : List α) :
    (sortBy le l).Perm l := by
  induction l with
  | nil => exact List.Perm.refl _
  | cons x xs ih => exact (insertSorted_perm le x (sortBy le xs)).trans (ih.cons x)

/-- Lines 67–73 of `src/fetch.py`: concatenate scraped and manual
records (manual after scraped), keep the last record per
`(month, category)` key, and re-sort by `(month, category)`.  (The
source wraps this in a `try` that only fires when the scraped frame
lacks the key columns; scraped input here is already record-shaped, so
that branch is unreachable.) -/
def mergeRecords (df m : List Rec) : List Rec :=
  sortBy recLE (keepLast (df ++ m))

/-- The dict comprehension `{c.lower().strip(): c for c in manual.columns}`
followed by `manual[cols[k]]`: the last column whose lower-cased,
stripped header equals `k` (later duplicate keys overwrite earlier). -/
def looseCol (t : PTable) (k : List Nat) : Option Col :=
  (t.filter (fun c => stripS (lowerS (nameStr c)) = k)).getLast?

/-- Amount-column selection of `_append_manual_if_present`: prefer
`amount_bdt`, else `amount_crore_bdt` (flagged for crore conversion),
else none (merge skipped). -/
def manualAmountCol (t : PTable) : Option (Col × Bool) :=
  match looseCol t (codes "amount_bdt") with
  | some c => some (c, false)
  | none =>
    match looseCol t (codes "amount_crore_bdt") with
    | some c => some (c, true)
    | none => none

/-- One normalized manual amount: `pd.to_numeric(errors="coerce").fillna(0)`,
times `1e7` for a crore-denominated column. -/
def manualAmountAt (ops : Ext) (c : Col) (crore : Bool) (i : Nat) : ℚ :=
  let v := (toNumCoerce ops (cellAt c i)).getD 0
  if crore then v * 10000000 else v

/-- Outcome of normalizing the manual table to `(month, category,
amount_bdt)` records. -/
inductive ManualNorm where
  | skip
  | fail
  | recs (l : List Rec)
deriving DecidableEq, Repr

/-- Lines 49–65 of `src/fetch.py`: normalize the manual frame.  With no
amount column the merge is skipped (`skip`).  The category and month
lookups and the month `pd.to_datetime` call are *not* inside any
`try/except`; their failures are uncaught exceptions (`fail`).  (If the
loose lookup misses, the source falls back to the literal column name,
which then also cannot exist, since a column by that exact name would
have matched the loose lookup.) -/
def normalizeManualCore (ops : Ext) (t : PTable) (acol : Col) (crore : Bool) : ManualNorm :=
  match looseCol t (codes "category"), looseCol t (codes "month") with
  | some ccol, some mcol =>
    if (List.range (nrows t)).any (fun i => isErrD (toDateStrict ops (cellAt mcol i))) then
      ManualNorm.fail
    else
      ManualNorm.recs ((List.range (nrows t)).map (fun i =>
        { month := errToNone (toDateStrict ops (cellAt mcol i)),
          category := cellToStr ops (cellAt ccol i),
          amount := manualAmountAt ops acol crore i }))
  | _, _ => ManualNorm.fail

def normalizeManual (ops : Ext) (t : PTable) : ManualNorm :=
  match manualAmountCol t with
  | none => ManualNorm.skip
  | some (acol, crore) => normalizeManualCore ops t acol crore

theorem normalizeManual_skip (ops : Ext) (t : PTable)
    (h : manualAmountCol t = none) : normalizeManual ops t = ManualNorm.skip := by
  unfold normalizeManual
  rw [h]

theorem normalizeManual_eq_core (ops : Ext) (t : PTable) (acol : Col) (crore : Bool)
    (h : manualAmountCol t = some (acol, crore)) :
    normalizeManual ops t = normalizeManualCore ops t acol crore := by
  unfold normalizeManual
  rw [h]

theorem normalizeManualCore_no_category (ops : Ext) (t : PTable) (acol : Col) (crore : Bool)
    (h : looseCol t (codes "category") = none) :
    normalizeManualCore ops t acol crore = ManualNorm.fail := by
  unfold normalizeManualCore
  rcases hm : looseCol t (codes "month") with _ | mcol <;> rw [h]

theorem normalizeManualCore_found (ops : Ext) (t : PTable) (acol : Col) (crore : Bool)
    (ccol mcol : Col)
    (hc : looseCol t (codes "category") = some ccol)
    (hm : looseCol t (codes "month") = some mcol) :
    normalizeManualCore ops t acol crore =
      (if (List.range (nrows t)).any
          (fun i => isErrD (toDateStrict ops (cellAt mcol i))) then
        ManualNorm.fail
      else
        ManualNorm.recs ((List.range (nrows t)).map (fun i =>
          { month := errToNone (toDateStrict ops (cellAt mcol i)),
            category := cellToStr ops (cellAt ccol i),
            amount := manualAmountAt ops acol crore i }))) := by
  unfold normalizeManualCore
  rw [hc, hm]

/-- `_append_manual_if_present` from `src/fetch.py`.  `manualFile` is
`none` when `data/mfs_manual.csv` does not exist, `some (Except.error ())`
when `pd.read_csv` raises (caught: the scraped records pass through
unchanged), and `some (Except.ok t)` when the file reads as table `t`. -/
def appendManualIfPresent (ops : Ext) (df : List Rec)
    (manualFile : Option (Except Unit PTable)) : Except Unit (List Rec) :=
  match manualFile with
  | none => Except.ok df
  | some (Except.error _) => Except.ok df
  | some (Except.ok t) =>
    match normalizeManual ops t with
    | ManualNorm.skip => Except.ok df
    | ManualNorm.fail => Except.error ()
    | ManualNorm.recs m => Except.ok (mergeRecords df m)

/-- Key-filtered image of `keepLast`: the records of key `k` that
survive last-wins deduplication are exactly the last input record of
key `k` (or nothing, when the key is absent). -/
theorem keepLast_filter (k : Option ℤ × List Nat) (l : List Rec) :
    (keepLast l).filter (fun r => recKey r = k) =
      ((l.filter (fun r => recKey r = k)).getLast?).toList := by
  induction l with
  | nil => rfl
  | cons r rs ih =>
    by_cases hdup : rs.any (fun x => recKey x = recKey r) = true
    · rw [show keepLast (r :: rs) = keepLast rs by simp [keepLast, hdup]]
      by_cases hk : recKey r = k
      · obtain ⟨x, hx, hxk⟩ : ∃ x, x ∈ rs ∧ recKey x = recKey r := by
          simpa [List.any_eq_true] using hdup
        have hne : rs.filter (fun x => recKey x = k) ≠ [] :=
          List.ne_nil_of_mem (List.mem_filter.mpr ⟨hx, by simp [hxk, hk]⟩)
        cases hfil : rs.filter (fun x => recKey x = k) with
        | nil => exact absurd hfil hne
        | cons y ys =>
          have hstep : (r :: rs).filter (fun x => recKey x = k) = r :: y :: ys := by
            rw [List.filter_cons]
            simp [hk, hfil]
          rw [ih, hfil, hstep, List.getLast?_cons_cons]
      · have hstep : (r :: rs).filter (fun x => recKey x = k) =
            rs.filter (fun x => recKey x = k) := by
          rw [List.filter_cons]
          simp [hk]
        rw [ih, hstep]
    · rw [show keepLast (r :: rs) = r :: keepLast rs by simp [keepLast, hdup]]
      have hnot : ∀ x ∈ rs, ¬ recKey x = recKey r := by
        intro x hx hcon
        exact hdup (List.any_eq_true.mpr ⟨x, hx, by simp [hcon]⟩)
      by_cases hk : recKey r = k
      · have hnone : rs.filter (fun x => recKey x = k) = [] := by
          rw [List.filter_eq_nil_iff]
          intro a ha
          simp only [decide_eq_true_eq]
          exact fun hcon => hnot a ha (hcon.trans hk.symm)
        have h2 : (r :: rs).filter (fun x => recKey x = k) = [r] := by
          rw [List.filter_cons]
          simp [hk, hnone]
        have h3 : (r :: keepLast rs).filter (fun x => recKey x = k) =
            r :: (keepLast rs).filter (fun x => recKey x = k) := by
          rw [List.filter_cons]
          simp [hk]
        rw [h3, ih, hnone, h2]
        rfl
      · have h2 : (r :: rs).filter (fun x => recKey x = k) =
            rs.filter (fun x => recKey x = k) := by
          rw [List.filter_cons]
          simp [hk]
        have h3 : (r :: keepLast rs).filter (fun x => recKey x = k) =
            (keepLast rs).filter (fun x => recKey x = k) := by
          rw [List.filter_cons]
          simp [hk]
        rw [h3, ih, h2]

/-- C1: manual-override merge precedence.  For every `(month, category)`
key present in both the scraped records `df` and the manual records `m`,
the merged output of `mergeRecords` (concatenation with manual records
last, then last-wins deduplication, then re-sort) contains exactly one
record for that key, and it is the (last) manual record of that key, so
its amount is the manual amount. -/
theorem C1_manual_override_precedence (df m : List Rec) (k : Option ℤ × List Nat)
    (_hdf : k ∈ df.map recKey) (hm : k ∈ m.map recKey) :
    ∃ r : Rec, (m.filter (fun x => recKey x = k)).getLast? = some r ∧
      (mergeRecords df m).filter (fun x => recKey x = k) = [r] := by
  obtain ⟨x, hx, hxk⟩ := List.mem_map.mp hm
  have hne : m.filter (fun x => recKey x = k) ≠ [] :=
    List.ne_nil_of_mem (List.mem_filter.mpr ⟨hx, by simp [hxk]⟩)
  obtain ⟨r, hr⟩ := Option.isSome_iff_exists.mp (List.getLast?_isSome.mpr hne)
  refine ⟨r, hr, ?_⟩
  unfold mergeRecords
  have h1 : ((sortBy recLE (keepLast (df ++ m))).filter
      (fun x => recKey x = k)).Perm
      ((keepLast (df ++ m)).filter (fun x => recKey x = k)) :=
    (sortBy_perm _ _).filter _
  rw [keepLast_filter, List.filter_append, List.getLast?_append, hr] at h1
  simp only [Option.or] at h1
  exact List.perm_singleton.mp h1

def recP2P100 : Rec := ⟨some 0, codes "P2P", 100⟩

def recP2P150 : Rec := ⟨some 0, codes "P2P", 150⟩

def keyP2P : Option ℤ × List Nat := (some 0, codes "P2P")

/-- Witness for `C1_manual_override_precedence`: scraped amount 100 and
manual amount 150 for the same key. -/
theorem C1_manual_override_precedence_witness :
    ∃ r : Rec, ([recP2P150].filter (fun x => recKey x = keyP2P)).getLast? = some r ∧
      (mergeRecords [recP2P100] [recP2P150]).filter (fun x => recKey x = keyP2P) = [r] :=
  C1_manual_override_precedence [recP2P100] [recP2P150] keyP2P
    (by decide) (by decide)

/-- C2, counterexample input: a readable manual table with `month` and
`amount_bdt` columns but no `category` column.  (A CSV file
`month,amount_bdt` produces exactly this after
`pd.read_csv(..., parse_dates=["month"])`.) -/
def manualNoCategory : PTable :=
  [⟨some (codes "month"), [Cell.date 0]⟩,
   ⟨some (codes "amount_bdt"), [Cell.num 5]⟩]

/-- A concrete `Ext` whose parsers reject everything; any concrete
behaviour would do for the witnesses that use it. -/
def extW : Ext where
  parseNum := fun _ => none
  numRepr := fun _ => codes "0.0"
  dateRepr := fun _ => codes "1970-01-01"
  parseDateStr := fun _ => none
  parseDateNum := fun _ => none
  parseYearStr := fun _ => none
  strictDateStr := fun _ => none
  strictDateNum := fun _ => none
  numOfDate := fun _ => none

/-- C2, counterexample: on a manual file that is present and misshapen
(month and amount columns, but no category column), the merge step is
not skipped — `manual[cols.get("category", "category")]` raises an
uncaught `KeyError` and the pipeline aborts instead of letting the
scraped data proceed. -/
theorem C2_counterexample :
    appendManualIfPresent extW [recP2P100] (some (Except.ok manualNoCategory)) =
      Except.error () := by rfl

/-- C2, amended: an absent manual file, a manual file whose parse
fails, and a readable manual file lacking both amount columns are all
non-fatal — the merge is skipped and the scraped records pass through
unchanged.  But a readable manual file that has an amount column and no
category column raises an uncaught error out of the merge step. -/
theorem C2_malformed_manual_handling (ops : Ext) (df : List Rec)
    (t₁ t₂ : PTable) (p : Col × Bool)
    (h₁ : manualAmountCol t₁ = none)
    (h₂ : manualAmountCol t₂ = some p)
    (h₃ : looseCol t₂ (codes "category") = none) :
    appendManualIfPresent ops df none = Except.ok df ∧
    appendManualIfPresent ops df (some (Except.error ())) = Except.ok df ∧
    appendManualIfPresent ops df (some (Except.ok t₁)) = Except.ok df ∧
    appendManualIfPresent ops df (some (Except.ok t₂)) = Except.error () := by
  refine ⟨rfl, rfl, ?_, ?_⟩
  · simp [appendManualIfPresent, normalizeManual_skip ops t₁ h₁]
  · obtain ⟨acol, crore⟩ := p
    have h4 : normalizeManual ops t₂ = ManualNorm.fail :=
      (normalizeManual_eq_core ops t₂ acol crore h₂).trans
        (normalizeManualCore_no_category ops t₂ acol crore h₃)
    simp [appendManualIfPresent, h4]

/-- C2, no-amount-column table for the amended claim's witness. -/
def manualNoAmount : PTable :=
  [⟨some (codes "month"), [Cell.date 0]⟩,
   ⟨some (codes "remark"), [Cell.str (codes "x")]⟩]

/-- Witness for `C2_malformed_manual_handling` at concrete tables. -/
theorem C2_malformed_manual_handling_witness :
    appendManualIfPresent extW [recP2P100] none = Except.ok [recP2P100] ∧
    appendManualIfPresent extW [recP2P100] (some (Except.error ())) =
      Except.ok [recP2P100] ∧
    appendManualIfPresent extW [recP2P100] (some (Except.ok manualNoAmount)) =
      Except.ok [recP2P100] ∧
    appendManualIfPresent extW [recP2P100] (some (Except.ok manualNoCategory)) =
      Except.error () :=
  C2_malformed_manual_handling extW [recP2P100] manualNoAmount manualNoCategory
    (⟨some (codes "amount_bdt"), [Cell.num 5]⟩, false)
    (by rfl) (by rfl) (by rfl)

/-- C10: a manual record whose amount cell fails numeric parsing is
neither dropped nor marked missing: `to_numeric(errors="coerce").fillna(0)`
coerces its amount to `0`, the record stays in the normalized manual set
at its row position, and therefore participates in last-wins
deduplication (so it can replace a valid scraped amount with `0`, as the
witness shows). -/
theorem C10_unparsable_manual_amount_coerced_to_zero
    (ops : Ext) (t : PTable) (m : List Rec) (acol : Col) (crore : Bool) (i : Nat)
    (hnorm : normalizeManual ops t = ManualNorm.recs m)
    (hacol : manualAmountCol t = some (acol, crore))
    (hi : i < nrows t)
    (hfail : toNumCoerce ops (cellAt acol i) = none) :
    m.length = nrows t ∧ ∃ hlt : i < m.length, (m.get ⟨i, hlt⟩).amount = 0 := by
  rw [normalizeManual_eq_core ops t acol crore hacol] at hnorm
  rcases hc : looseCol t (codes "category") with _ | ccol
  · rw [normalizeManualCore_no_category ops t acol crore hc] at hnorm
    cases hnorm
  rcases hmo : looseCol t (codes "month") with _ | mcol
  · unfold normalizeManualCore at hnorm
    rw [hc, hmo] at hnorm
    cases hnorm
  rw [normalizeManualCore_found ops t acol crore ccol mcol hc hmo] at hnorm
  by_cases herr :
      (List.range (nrows t)).any
        (fun j => isErrD (toDateStrict ops (cellAt mcol j))) = true
  · rw [if_pos herr] at hnorm
    cases hnorm
  · rw [if_neg herr] at hnorm
    injection hnorm with hmap
    subst hmap
    have hlen : ((List.range (nrows t)).map (fun i =>
        ({ month := errToNone (toDateStrict ops (cellAt mcol i)),
           category := cellToStr ops (cellAt ccol i),
           amount := manualAmountAt ops acol crore i } : Rec))).length = nrows t := by
      rw [List.length_map, List.length_range]
    refine ⟨hlen, by omega, ?_⟩
    rw [List.get_eq_getElem, List.getElem_map, List.getElem_range]
    simp only [manualAmountAt, hfail, Option.getD_none]
    cases crore <;> simp

def manualUnparsable : PTable :=
  [⟨some (codes "month"), [Cell.date 0]⟩,
   ⟨some (codes "category"), [Cell.str (codes "P2P")]⟩,
   ⟨some (codes "amount_bdt"), [Cell.str (codes "not a number")]⟩]

def manualUnparsableRecs : List Rec := [⟨some 0, codes "P2P", 0⟩]

/-- Witness for `C10_unparsable_manual_amount_coerced_to_zero`, plus the
replacement scenario: the zero-coerced manual record wins the last-wins
merge against a valid scraped amount of 100 for the same key. -/
theorem C10_unparsable_manual_amount_coerced_to_zero_witness :
    (manualUnparsableRecs.length = nrows manualUnparsable ∧
      ∃ hlt : 0 < manualUnparsableRecs.length,
        (manualUnparsableRecs.get ⟨0, hlt⟩).amount = 0) ∧
    mergeRecords [recP2P100] manualUnparsableRecs = [⟨some 0, codes "P2P", 0⟩] :=
  ⟨C10_unparsable_manual_amount_coerced_to_zero extW manualUnparsable
      manualUnparsableRecs ⟨some (codes "amount_bdt"), [Cell.str (codes "not a number")]⟩
      false 0 (by rfl) (by rfl) (by decide) (by rfl),
    by rfl⟩

/-! ## Growth calculator (`src/metrics.py`, `add_growth`) -/

/-- A pre-growth monthly metric row (output of `aggregate_monthly`):
month (as a month index), category, summed amount. -/
structure GRow where
  month : ℤ
  category : List Nat
  amount : ℚ
deriving DecidableEq, Repr

/-- A growth-augmented row: `mom`/`yoy` are `none` where pandas
`pct_change` yields `NaN` (no comparison row). -/
structure GOut where
  month : ℤ
  category : List Nat
  amount : ℚ
  mom : Option ℚ
  yoy : Option ℚ
deriving DecidableEq, Repr

/-- `sort_values(["category", "month"])` comparison. -/
def growLE (a b : GRow) : Bool :=
  if a.category = b.category then a.month ≤ b.month
  else lexLe a.category b.category

/-- `groupby("category")[...].pct_change(k)` at frame position `i`
holding row `r`: pandas compares against the row `k` positions earlier
*within the category group in frame order* (the `k`-th latest earlier
row of the same category), yielding `NaN` (`none`) when fewer than `k`
such rows exist. -/
def pctChangeAt (s : List GRow) (k : Nat) (i : Nat) (r : GRow) : Option ℚ :=
  let before := (s.take i).filter (fun x => x.category = r.category)
  if h : 0 < k ∧ k ≤ before.length then
    some (r.amount / (before.get ⟨before.length - k, by omega⟩).amount - 1)
  else none

/-- `add_growth` from `src/metrics.py`: sort by `(category, month)`,
then `mom := pct_change()` and `yoy := pct_change(12)` per category. -/
def add_growth (l : List GRow) : List GOut :=
  let s := sortBy growLE l
  s.mapIdx (fun i r =>
    { month := r.month, category := r.category, amount := r.amount,
      mom := pctChangeAt s 1 i r,
      yoy := pctChangeAt s 12 i r })

theorem lexLe_cons_iff (x y : Nat) (xs ys : List Nat) :
    lexLe (x :: xs) (y :: ys) = true ↔ (x < y ∨ (x = y ∧ lexLe xs ys = true)) := by
  simp only [lexLe]
  by_cases h1 : x < y
  · simp [h1]
  · by_cases h2 : y < x
    · simp only [h1, h2, if_false, if_true]
      constructor
      · intro h
        cases h
      · rintro (h | ⟨rfl, h⟩)
        · exact h.elim
        · omega
    · have hxy : x = y := by omega
      simp [h1, h2, hxy]

theorem lexLe_trans : ∀ (a b c : List Nat),
    lexLe a b = true → lexLe b c = true → lexLe a c = true
  | [], _, _ => fun _ _ => rfl
  | _ :: _, [], _ => fun h _ => by simp [lexLe] at h
  | _ :: _, _ :: _, [] => fun _ h => by simp [lexLe] at h
  | x :: xs, y :: ys, z :: zs => fun h1 h2 => by
    rw [lexLe_cons_iff] at h1 h2 ⊢
    rcases h1 with h1 | ⟨rfl, h1⟩
    · rcases h2 with h2 | ⟨rfl, h2⟩
      · exact Or.inl (by omega)
      · exact Or.inl h1
    · rcases h2 with h2 | ⟨rfl, h2⟩
      · exact Or.inl h2
      · exact Or.inr ⟨rfl, lexLe_trans xs ys zs h1 h2⟩

theorem lexLe_total : ∀ (a b : List Nat), (lexLe a b || lexLe b a) = true
  | [], _ => by simp [lexLe]
  | _ :: _, [] => by simp [lexLe]
  | x :: xs, y :: ys => by
    rw [Bool.or_eq_true, lexLe_cons_iff, lexLe_cons_iff]
    rcases Nat.lt_trichotomy x y with h | h | h
    · exact Or.inl (Or.inl h)
    · have h2 := lexLe_total xs ys
      rw [Bool.or_eq_true] at h2
      rcases h2 with h2 | h2
      · exact Or.inl (Or.inr ⟨h, h2⟩)
      · exact Or.inr (Or.inr ⟨h.symm, h2⟩)
    · exact Or.inr (Or.inl h)

theorem lexLe_antisymm : ∀ (a b : List Nat),
    lexLe a b = true → lexLe b a = true → a = b
  | [], [] => fun _ _ => rfl
  | [], _ :: _ => fun _ h => by simp [lexLe] at h
  | _ :: _, [] => fun h _ => by simp [lexLe] at h
  | x :: xs, y :: ys => fun h1 h2 => by
    rw [lexLe_cons_iff] at h1 h2
    rcases h1 with h1 | ⟨he, h1⟩
    · rcases h2 with h2 | ⟨he2, h2⟩
      · omega
      · omega
    · rcases h2 with h2 | ⟨he2, h2⟩
      · omega
      · rw [he, lexLe_antisymm xs ys h1 h2]

theorem growLE_trans (a b c : GRow)
    (h1 : growLE a b = true) (h2 : growLE b c = true) : growLE a c = true := by
  unfold growLE at h1 h2 ⊢
  by_cases hab : a.category = b.category <;> by_cases hbc : b.category = c.category
  · rw [if_pos hab] at h1
    rw [if_pos hbc] at h2
    rw [if_pos (hab.trans hbc)]
    simp only [decide_eq_true_eq] at h1 h2 ⊢
    omega
  · rw [if_neg hbc] at h2
    rw [if_neg (by rw [hab]; exact hbc), hab]
    exact h2
  · rw [if_neg hab] at h1
    rw [if_neg (by rw [← hbc]; exact hab), ← hbc]
    exact h1
  · rw [if_neg hab] at h1
    rw [if_neg hbc] at h2
    by_cases hac : a.category = c.category
    · exfalso
      have : a.category = b.category :=
        lexLe_antisymm _ _ h1 (by rw [hac]; exact h2)
      exact hab this
    · rw [if_neg hac]
      exact lexLe_trans _ _ _ h1 h2

theorem growLE_total (a b : GRow) : (growLE a b || growLE b a) = true := by
  unfold growLE
  by_cases hab : a.category = b.category
  · rw [if_pos hab, if_pos hab.symm]
    simp only [Bool.or_eq_true, decide_eq_true_eq]
    omega
  · rw [if_neg hab, if_neg (fun h => hab h.symm)]
    exact lexLe_total _ _

theorem insertSorted_pairwise {α : Type} (le : α → α → Bool)
    (htrans : ∀ a b c, le a b = true → le b c = true → le a c = true)
    (htotal : ∀ a b, (le a b || le b a) = true)
    (r : α) (l : List α) (h : l.Pairwise (fun a b => le a b = true)) :
    (insertSorted le r l).Pairwise (fun a b => le a b = true) := by
  induction l with
  | nil => simp [insertSorted]
  | cons x xs ih =>
    rcases List.pairwise_cons.mp h with ⟨hx, hxs⟩
    by_cases hcond : (le r x && !le x r) = true
    · rw [show insertSorted le r (x :: xs) = r :: x :: xs by simp [insertSorted, hcond]]
      have hrx : le r x = true := by
        rw [Bool.and_eq_true] at hcond
        exact hcond.1
      refine List.pairwise_cons.mpr ⟨?_, h⟩
      intro y hy
      rcases List.mem_cons.mp hy with rfl | hy
      · exact hrx
      · exact htrans _ _ _ hrx (hx y hy)
    · rw [show insertSorted le r (x :: xs) = x :: insertSorted le r xs by
        simp [insertSorted, hcond]]
      have hxr : le x r = true := by
        have htot := htotal r x
        rw [Bool.or_eq_true] at htot
        rcases htot with h1 | h1
        · by_contra h2
          have h3 : le x r = false := by
            cases hlexr : le x r
            · rfl
            · exact absurd hlexr h2
          exact hcond (by rw [h1, h3]; rfl)
        · exact h1
      refine List.pairwise_cons.mpr ⟨?_, ih hxs⟩
      intro y hy
      have hy2 : y ∈ r :: xs := (insertSorted_perm le r xs).mem_iff.mp hy
      rcases List.mem_cons.mp hy2 with rfl | hy3
      · exact hxr
      · exact hx y hy3

theorem sortBy_pairwise {α : Type} (le : α → α → Bool)
    (htrans : ∀ a b c, le a b = true → le b c = true → le a c = true)
    (htotal : ∀ a b, (le a b || le b a) = true)
    (l : List α) : (sortBy le l).Pairwise (fun a b => le a b = true) := by
  induction l with
  | nil => exact List.Pairwise.nil
  | cons x xs ih => exact insertSorted_pairwise le htrans htotal x (sortBy le xs) ih

theorem growLE_refl (a : GRow) : growLE a a = true := by
  unfold growLE
  rw [if_pos rfl]
  simp

/-- Bridge between frame positions and calendar months: in the sorted
frame, the same-category rows before position `i` are exactly the
same-category rows with a strictly smaller month, provided no
`(category, month)` pair repeats. -/
theorem sorted_before_eq (l : List GRow)
    (hnodup : (l.map (fun r => (r.category, r.month))).Nodup)
    (i : Nat) (hi : i < (sortBy growLE l).length) :
    ((sortBy growLE l).take i).filter
        (fun x => x.category = ((sortBy growLE l).get ⟨i, hi⟩).category) =
      (sortBy growLE l).filter
        (fun x => x.category = ((sortBy growLE l).get ⟨i, hi⟩).category ∧
          x.month < ((sortBy growLE l).get ⟨i, hi⟩).month) := by
  set s := sortBy growLE l with hs
  have hperm : s.Perm l := sortBy_perm growLE l
  have hpair : s.Pairwise (fun a b => growLE a b = true) :=
    sortBy_pairwise growLE growLE_trans growLE_total l
  have hsnodup : (s.map (fun r => (r.category, r.month))).Nodup :=
    ((hperm.map _).nodup_iff).mpr hnodup
  have hpg : ∀ j k (_ : j < s.length) (_ : k < s.length), j < k →
      growLE (s.get ⟨j, by omega⟩) (s.get ⟨k, by omega⟩) = true := by
    intro j k hj hk hjk
    simpa using List.pairwise_iff_getElem.mp hpair j k hj hk hjk
  have hne : ∀ j (hj : j < s.length), j ≠ i →
      ((s.get ⟨j, hj⟩).category, (s.get ⟨j, hj⟩).month) ≠
        ((s.get ⟨i, hi⟩).category, (s.get ⟨i, hi⟩).month) := by
    intro j hj hji hcon
    have hmj : j < (s.map (fun r => (r.category, r.month))).length := by
      simpa using hj
    have hmi : i < (s.map (fun r => (r.category, r.month))).length := by
      simpa using hi
    have h1 : (s.map (fun r => (r.category, r.month)))[j] =
        (s.map (fun r => (r.category, r.month)))[i] := by
      rw [List.getElem_map, List.getElem_map]
      simpa using hcon
    exact hji (hsnodup.getElem_inj_iff.mp h1)
  have h1 : (s.take i).filter
      (fun x => x.category = (s.get ⟨i, hi⟩).category) =
      (s.take i).filter
      (fun x => x.category = (s.get ⟨i, hi⟩).category ∧
        x.month < (s.get ⟨i, hi⟩).month) := by
    apply List.filter_congr
    intro x hx
    obtain ⟨j, hj, hxj⟩ := List.mem_iff_getElem.mp hx
    rw [List.length_take] at hj
    have hji : j < i := by omega
    have hjs : j < s.length := by omega
    have hxj2 : s.get ⟨j, hjs⟩ = x := by
      rw [← hxj]
      rw [List.get_eq_getElem, List.getElem_take]
    by_cases hc : x.category = (s.get ⟨i, hi⟩).category
    · have hle : growLE x (s.get ⟨i, hi⟩) = true := by
        rw [← hxj2]
        exact hpg j i hjs hi hji
      have hmle : x.month ≤ (s.get ⟨i, hi⟩).month := by
        unfold growLE at hle
        rw [if_pos hc] at hle
        simpa using hle
      have hmne : x.month ≠ (s.get ⟨i, hi⟩).month := by
        intro he
        refine hne j hjs (by omega) ?_
        rw [hxj2, Prod.mk.injEq]
        exact ⟨hc, he⟩
      simp only [hc, true_and, decide_eq_decide]
      exact ⟨fun _ => lt_of_le_of_ne hmle hmne, fun _ => trivial⟩
    · simp only [decide_eq_decide]
      exact ⟨fun hcc => absurd hcc hc, fun hcc => hcc.1⟩
  have h2 : (s.drop i).filter
      (fun x => x.category = (s.get ⟨i, hi⟩).category ∧
        x.month < (s.get ⟨i, hi⟩).month) = [] := by
    rw [List.filter_eq_nil_iff]
    intro x hx
    obtain ⟨j, hj, hxj⟩ := List.mem_iff_getElem.mp hx
    rw [List.length_drop] at hj
    have hjs : i + j < s.length := by omega
    have hxj2 : s.get ⟨i + j, hjs⟩ = x := by
      rw [← hxj]
      rw [List.get_eq_getElem, List.getElem_drop]
    simp only [decide_eq_true_eq, not_and, not_lt]
    intro hc
    have hle : growLE (s.get ⟨i, hi⟩) x = true := by
      rcases Nat.eq_zero_or_pos j with rfl | hjpos
      · rw [← hxj2]
        have : s.get ⟨i + 0, hjs⟩ = s.get ⟨i, hi⟩ := by
          congr 1
        rw [this]
        exact growLE_refl _
      · rw [← hxj2]
        exact hpg i (i + j) hi hjs (by omega)
    unfold growLE at hle
    rw [if_pos (by rw [hc])] at hle
    simpa using hle
  calc (s.take i).filter (fun x => x.category = (s.get ⟨i, hi⟩).category)
      = (s.take i).filter
          (fun x => x.category = (s.get ⟨i, hi⟩).category ∧
            x.month < (s.get ⟨i, hi⟩).month) := h1
    _ = (s.take i).filter
          (fun x => x.category = (s.get ⟨i, hi⟩).category ∧
            x.month < (s.get ⟨i, hi⟩).month) ++
        (s.drop i).filter
          (fun x => x.category = (s.get ⟨i, hi⟩).category ∧
            x.month < (s.get ⟨i, hi⟩).month) := by
        rw [h2, List.append_nil]
    _ = s.filter
          (fun x => x.category = (s.get ⟨i, hi⟩).category ∧
            x.month < (s.get ⟨i, hi⟩).month) := by
        rw [← List.filter_append, List.take_append_drop]

theorem pctChangeAt_isSome_iff (s : List GRow) (k i : Nat) (r : GRow) (hk : 0 < k) :
    ((pctChangeAt s k i r).isSome = true) ↔
      k ≤ ((s.take i).filter (fun x => x.category = r.category)).length := by
  unfold pctChangeAt
  by_cases h : 0 < k ∧ k ≤ ((s.take i).filter (fun x => x.category = r.category)).length
  · rw [dif_pos h]
    simp [h.2]
  · rw [dif_neg h]
    constructor
    · intro hfalse
      exact absurd hfalse (by simp)
    · intro hlen
      exact absurd ⟨hk, hlen⟩ h

theorem pctChangeAt_eq_some (s : List GRow) (k i : Nat) (r : GRow) (v : ℚ)
    (h : pctChangeAt s k i r = some v) :
    0 < k ∧ k ≤ ((s.take i).filter (fun x => x.category = r.category)).length ∧
    ∃ hlt : ((s.take i).filter (fun x => x.category = r.category)).length - k <
        ((s.take i).filter (fun x => x.category = r.category)).length,
      v = r.amount /
        (((s.take i).filter (fun x => x.category = r.category)).get
          ⟨((s.take i).filter (fun x => x.category = r.category)).length - k,
            hlt⟩).amount - 1 := by
  unfold pctChangeAt at h
  by_cases hc : 0 < k ∧ k ≤ ((s.take i).filter (fun x => x.category = r.category)).length
  · rw [dif_pos hc] at h
    injection h with h2
    exact ⟨hc.1, hc.2, by omega, h2.symm⟩
  · rw [dif_neg hc] at h
    cases h

theorem add_growth_get (l : List GRow) (i : Nat) (hi : i < (add_growth l).length) :
    ∃ hi2 : i < (sortBy growLE l).length,
      (add_growth l).get ⟨i, hi⟩ =
        { month := ((sortBy growLE l).get ⟨i, hi2⟩).month,
          category := ((sortBy growLE l).get ⟨i, hi2⟩).category,
          amount := ((sortBy growLE l).get ⟨i, hi2⟩).amount,
          mom := pctChangeAt (sortBy growLE l) 1 i ((sortBy growLE l).get ⟨i, hi2⟩),
          yoy := pctChangeAt (sortBy growLE l) 12 i
            ((sortBy growLE l).get ⟨i, hi2⟩) } := by
  have hi2 : i < (sortBy growLE l).length := by
    have hlen : (add_growth l).length = (sortBy growLE l).length := by
      simp [add_growth]
    omega
  refine ⟨hi2, ?_⟩
  rw [List.get_eq_getElem, List.get_eq_getElem]
  simp only [add_growth]
  rw [List.getElem_mapIdx]

/-- Row-level semantics of `add_growth` on aggregated data (one row per
`(category, month)`): `mom` is present exactly when the category has an
earlier observation (by month — not necessarily the previous calendar
month), `yoy` exactly when it has at least 12 earlier observations, and
a present `mom` is the ratio against the category's *latest earlier*
observation, whatever calendar gap separates them. -/
theorem add_growth_row_semantics (l : List GRow)
    (hnodup : (l.map (fun r => (r.category, r.month))).Nodup) :
    ∀ r ∈ add_growth l,
      ((r.mom.isSome = true) ↔
        ∃ x ∈ l, x.category = r.category ∧ x.month < r.month) ∧
      ((r.yoy.isSome = true) ↔
        12 ≤ (l.filter
          (fun x => x.category = r.category ∧ x.month < r.month)).length) ∧
      (∀ v, r.mom = some v →
        ∃ p ∈ l, p.category = r.category ∧ p.month < r.month ∧
          (∀ x ∈ l, x.category = r.category → x.month < r.month →
            x.month ≤ p.month) ∧
          v = r.amount / p.amount - 1) := by
  intro r hr
  obtain ⟨i, hil, hri⟩ := List.mem_iff_getElem.mp hr
  obtain ⟨hi, hget⟩ := add_growth_get l i hil
  have hstruct : r =
      { month := ((sortBy growLE l).get ⟨i, hi⟩).month,
        category := ((sortBy growLE l).get ⟨i, hi⟩).category,
        amount := ((sortBy growLE l).get ⟨i, hi⟩).amount,
        mom := pctChangeAt (sortBy growLE l) 1 i ((sortBy growLE l).get ⟨i, hi⟩),
        yoy := pctChangeAt (sortBy growLE l) 12 i
          ((sortBy growLE l).get ⟨i, hi⟩) } := by
    rw [← hri]
    exact hget
  subst hstruct
  dsimp only
  have hpair : (sortBy growLE l).Pairwise (fun a b => growLE a b = true) :=
    sortBy_pairwise growLE growLE_trans growLE_total l
  have hbefore := sorted_before_eq l hnodup i hi
  have hperm2 : (((sortBy growLE l).take i).filter
      (fun x => x.category = ((sortBy growLE l).get ⟨i, hi⟩).category)).Perm
      (l.filter (fun x => x.category = ((sortBy growLE l).get ⟨i, hi⟩).category ∧
        x.month < ((sortBy growLE l).get ⟨i, hi⟩).month)) := by
    rw [hbefore]
    exact (sortBy_perm growLE l).filter _
  have hsome : ∀ k : Nat, 0 < k →
      (((pctChangeAt (sortBy growLE l) k i
          ((sortBy growLE l).get ⟨i, hi⟩)).isSome = true) ↔
        k ≤ (l.filter
          (fun x => x.category = ((sortBy growLE l).get ⟨i, hi⟩).category ∧
            x.month < ((sortBy growLE l).get ⟨i, hi⟩).month)).length) := by
    intro k hk
    rw [pctChangeAt_isSome_iff _ _ _ _ hk, hperm2.length_eq]
  refine ⟨?_, ?_, ?_⟩
  · rw [hsome 1 (by omega)]
    constructor
    · intro hlen
      obtain ⟨x, hx⟩ := List.length_pos_iff_exists_mem.mp
        (Nat.lt_of_lt_of_le Nat.zero_lt_one hlen)
      rw [List.mem_filter] at hx
      exact ⟨x, hx.1, of_decide_eq_true hx.2⟩
    · rintro ⟨x, hx, hP⟩
      have hxf : x ∈ l.filter
          (fun x => x.category = ((sortBy growLE l).get ⟨i, hi⟩).category ∧
            x.month < ((sortBy growLE l).get ⟨i, hi⟩).month) :=
        List.mem_filter.mpr ⟨hx, decide_eq_true hP⟩
      have := List.length_pos_iff_exists_mem.mpr ⟨x, hxf⟩
      omega
  · rw [hsome 12 (by omega)]
  · intro v hv
    obtain ⟨_, hklen, hlt, hval⟩ := pctChangeAt_eq_some _ _ _ _ _ hv
    set B := ((sortBy growLE l).take i).filter
      (fun x => x.category = ((sortBy growLE l).get ⟨i, hi⟩).category) with hB
    set p := B.get ⟨B.length - 1, hlt⟩ with hp
    have hpB : p ∈ B := List.get_mem _ _ _
    have hpl : p ∈ l.filter
        (fun x => x.category = ((sortBy growLE l).get ⟨i, hi⟩).category ∧
          x.month < ((sortBy growLE l).get ⟨i, hi⟩).month) :=
      hperm2.mem_iff.mp hpB
    rw [List.mem_filter] at hpl
    have hpl2 := hpl.2
    rw [decide_eq_true_eq] at hpl2
    refine ⟨p, hpl.1, hpl2.1, hpl2.2, ?_, hval⟩
    intro x hx hxc hxm
    have hxB : x ∈ B := hperm2.mem_iff.mpr
      (List.mem_filter.mpr ⟨hx, decide_eq_true ⟨hxc, hxm⟩⟩)
    obtain ⟨j, hj, hxj⟩ := List.mem_iff_getElem.mp hxB
    have hBpair : B.Pairwise (fun a b => growLE a b = true) :=
      List.Pairwise.filter _
        (List.Pairwise.sublist (List.take_sublist i (sortBy growLE l)) hpair)
    by_cases hjlast : j = B.length - 1
    · subst hjlast
      have hxp : x = p := by
        rw [← hxj, hp]
        exact (List.get_eq_getElem B ⟨B.length - 1, hlt⟩).symm
      exact le_of_eq (congrArg GRow.month hxp)
    · have hjlt : j < B.length - 1 := by omega
      have hg : growLE (B.get ⟨j, hj⟩) (B.get ⟨B.length - 1, hlt⟩) = true := by
        simpa using List.pairwise_iff_getElem.mp hBpair j (B.length - 1) hj hlt hjlt
      have hg2 : growLE x p = true := by
        rw [← hxj, hp]
        exact hg
      have hpc : p.category = ((sortBy growLE l).get ⟨i, hi⟩).category := hpl2.1
      unfold growLE at hg2
      rw [if_pos (by rw [hxc, hpc])] at hg2
      simpa using hg2

/-- A category with observations for months 0 and 2 but not 1:
the immediately preceding chronological month of the second row is
absent from the data. -/
def gapRows : List GRow := [⟨0, codes "P2P", 1⟩, ⟨2, codes "P2P", 3⟩]

/-- C5, counterexample: with months 0 and 2 of "P2P" present and month 1
absent, the claim says `mom` of the month-2 row must be absent (its
immediately preceding chronological month is missing), but pandas
`pct_change` is row-based, so `mom` is present (comparing month 2
against month 0). -/
theorem C5_counterexample :
    ((add_growth gapRows).get ⟨1, by decide⟩).month = 2 ∧
    ((add_growth gapRows).get ⟨1, by decide⟩).category = codes "P2P" ∧
    ((add_growth gapRows).get ⟨1, by decide⟩).mom.isSome = true ∧
    gapRows.all (fun r => decide (r.month ≠ 1)) = true :=
  ⟨rfl, rfl, rfl, by decide⟩

/-- C5, amended: `mom`/`yoy` look back by *rows of the category*, not by
calendar months.  On aggregated data (no repeated `(category, month)`
pair) with non-zero amounts: `mom` is present iff the category has any
earlier observation — even across a month gap — and then equals the
ratio against the category's latest earlier observation; `yoy` is
present iff the category has at least 12 earlier observations (12 rows
back, not 12 calendar months back).  (The non-zero–amount hypothesis
marks the domain on which the rational model matches float division.) -/
theorem C5_growth_lookback_is_row_based (l : List GRow)
    (hnodup : (l.map (fun r => (r.category, r.month))).Nodup)
    (_hnz : ∀ x ∈ l, x.amount ≠ 0) :
    ∀ r ∈ add_growth l,
      ((r.mom.isSome = true) ↔
        ∃ x ∈ l, x.category = r.category ∧ x.month < r.month) ∧
      ((r.yoy.isSome = true) ↔
        12 ≤ (l.filter
          (fun x => x.category = r.category ∧ x.month < r.month)).length) ∧
      (∀ v, r.mom = some v →
        ∃ p ∈ l, p.category = r.category ∧ p.month < r.month ∧
          (∀ x ∈ l, x.category = r.category → x.month < r.month →
            x.month ≤ p.month) ∧
          v = r.amount / p.amount - 1) :=
  fun r hr => add_growth_row_semantics l hnodup r hr

/-- Witness for `C5_growth_lookback_is_row_based`: the gapped series has
a present `mom` on its month-2 row. -/
theorem C5_growth_lookback_is_row_based_witness :
    ((add_growth gapRows).get ⟨1, by decide⟩).mom.isSome = true :=
  ((C5_growth_lookback_is_row_based gapRows (by decide) (by decide)
      ((add_growth gapRows).get ⟨1, by decide⟩)
      (List.get_mem _ 1 (by decide))).1).mpr
    ⟨⟨0, codes "P2P", 1⟩, by decide, by decide, by decide⟩

/-- C7: on aggregated data, the chronologically first row of a category
(no earlier month of that category exists) has `mom` absent, and any row
with fewer than 12 earlier months of its category has `yoy` absent. -/
theorem C7_growth_boundary (l : List GRow)
    (hnodup : (l.map (fun r => (r.category, r.month))).Nodup) :
    ∀ r ∈ add_growth l,
      ((¬ ∃ x ∈ l, x.category = r.category ∧ x.month < r.month) →
        r.mom = none) ∧
      ((l.filter
          (fun x => x.category = r.category ∧ x.month < r.month)).length < 12 →
        r.yoy = none) := by
  intro r hr
  obtain ⟨h1, h2, _⟩ := add_growth_row_semantics l hnodup r hr
  constructor
  · intro hno
    cases hmom : r.mom with
    | none => rfl
    | some v =>
      exact absurd (h1.mp (by rw [hmom]; rfl)) hno
  · intro hlt
    cases hyoy : r.yoy with
    | none => rfl
    | some v =>
      have h12 := h2.mp (by rw [hyoy]; rfl)
      omega

/-- Scenario B of the spec: three consecutive months of "P2P" with
amounts 1, 2, 3. -/
def rows3 : List GRow :=
  [⟨0, codes "P2P", 1⟩, ⟨1, codes "P2P", 2⟩, ⟨2, codes "P2P", 3⟩]

/-- Witness for `C7_growth_boundary`: on scenario B, the first month has
`mom` absent, and all three months have `yoy` absent. -/
theorem C7_growth_boundary_witness :
    ((add_growth rows3).get ⟨0, by decide⟩).mom = none ∧
    ((add_growth rows3).get ⟨0, by decide⟩).yoy = none ∧
    ((add_growth rows3).get ⟨2, by decide⟩).yoy = none :=
  ⟨(C7_growth_boundary rows3 (by decide) _ (List.get_mem _ 0 (by decide))).1
      (by decide),
    (C7_growth_boundary rows3 (by decide) _ (List.get_mem _ 0 (by decide))).2
      (by decide),
    (C7_growth_boundary rows3 (by decide) _ (List.get_mem _ 2 (by decide))).2
      (by decide)⟩

/-! ## Header normalizer (`src/etl.py`, `normalize_columns`) -/

/-- The `CANON` rename map of `src/etl.py`, as `(loose header, canonical
name)` pairs in source order.  (The `"month "` key is unreachable after
stripping but is kept for fidelity.) -/
def CANON : List (List Nat × List Nat) :=
  [(codes "month", codes "month"),
   (codes "month ", codes "month"),
   (codes "particulars", codes "category"),
   (codes "items", codes "category"),
   (codes "amount (in crore bdt)", codes "amount_crore_bdt"),
   (codes "amount(in crore bdt)", codes "amount_crore_bdt"),
   (codes "value(in crore bdt)", codes "amount_crore_bdt"),
   (codes "p2p", codes "P2P"),
   (codes "merchant payment", codes "Merchant Payment"),
   (codes "cash in", codes "Cash In"),
   (codes "cash out", codes "Cash Out"),
   (codes "salary disbursement (b2p)", codes "Salary Disbursement (B2P)"),
   (codes "utility bill payment (p2b)", codes "Utility Bill Payment (P2B)"),
   (codes "government payment", codes "Government Payment"),
   (codes "others", codes "Others")]

/-- `CANON.get(c, c)`. -/
def canonGet (n : List Nat) : List Nat :=
  match CANON.find? (fun p => p.1 = n) with
  | some p => p.2
  | none => n

/-- Step 1 of `normalize_columns`: `("" if c is None else str(c)).strip().lower()`. -/
def normHeader (n : Option (List Nat)) : List Nat := lowerS (stripS (n.getD []))

/-- `pat` is a leading piece of `s`. -/
def startsWithC : List Nat → List Nat → Bool
  | [], _ => true
  | _ :: _, [] => false
  | p :: ps, c :: cs => p = c && startsWithC ps cs

/-- Step 2 of `normalize_columns`: drop headers that are empty or start
with `"unnamed"`. -/
def isBadName (n : List Nat) : Bool := n.isEmpty || startsWithC (codes "unnamed") n

/-- Step 3 of `normalize_columns`: `dropna(axis=1, how="all")` drops a
column whose cells are all missing (an empty column has no all-`NaN`
values and is kept). -/
def allMissingDrop (c : Col) : Bool :=
  !c.cells.isEmpty && c.cells.all (fun x => x = Cell.missing)

/-- `normalize_columns` from `src/etl.py`: lower-case and strip headers
(`None` becomes `""`), drop empty/`unnamed` headers, drop all-missing
columns, then apply the `CANON` rename map. -/
def normalizeColumns (t : PTable) : PTable :=
  (((t.map (fun c => ({ name := some (normHeader c.name), cells := c.cells } : Col))).filter
      (fun c => !isBadName (nameStr c))).filter
    (fun c => !allMissingDrop c)).map
    (fun c => { c with name := some (canonGet (nameStr c)) })

/-! ## Tidy stage (`src/etl.py`, `tidy`) -/

def isDigitC (c : Nat) : Bool := 48 ≤ c && c ≤ 57

/-- `\w` over the ASCII range relevant to this data. -/
def isWordC (c : Nat) : Bool :=
  isDigitC c || (97 ≤ c && c ≤ 122) || (65 ≤ c && c ≤ 90) || c = 95

/-- `20\d{2}` at the head of the string. -/
def starts20dd : List Nat → Bool
  | 50 :: 48 :: c :: d :: _ => isDigitC c && isDigitC d
  | _ => false

def monthTokens : List (List Nat) :=
  [codes "jan", codes "feb", codes "mar", codes "apr", codes "may", codes "jun",
   codes "jul", codes "aug", codes "sep", codes "oct", codes "nov", codes "dec"]

/-- `re_date` from `src/etl.py`: case-insensitive search for
`\b(20\d{2}|Jan|…|Dec)`.  The word boundary requires a non-word
character (or the string start) immediately before the match. -/
def reDate (s : List Nat) : Bool :=
  (List.range s.length).any (fun i =>
    (decide (i = 0) || !isWordC (s.getD (i - 1) 0)) &&
      (starts20dd (s.drop i) ||
        monthTokens.any (fun tok => startsWithC tok (lowerS (s.drop i)))))

def amountName : List Nat := codes "amount_crore_bdt"

def categoryName : List Nat := codes "category"

def hasCol (t : PTable) (n : List Nat) : Bool := t.any (fun c => c.name = some n)

def findCol (t : PTable) (n : List Nat) : Option Col :=
  t.find? (fun c => c.name = some n)

/-- `pd.melt(id_vars, value_vars=mcols, var_name="month",
value_name="amount_crore_bdt")`: one block of rows per date-like column;
identifier columns are replicated per block, the `month` column holds
the originating column label and the value column its cells. -/
def melt (t : PTable) : PTable :=
  let mcols := t.filter (fun c => reDate (nameStr c))
  let idcols := t.filter (fun c => !reDate (nameStr c))
  let n := nrows t
  (idcols.map (fun c =>
      ({ name := c.name,
         cells := (mcols.map (fun _ => (List.range n).map (fun i => cellAt c i))).flatten }
        : Col))) ++
  [⟨some (codes "month"),
      (mcols.map (fun mc => List.replicate n (Cell.str (nameStr mc)))).flatten⟩,
   ⟨some amountName,
      (mcols.map (fun mc => (List.range n).map (fun i => cellAt mc i))).flatten⟩]

/-- The reshaper branch of `tidy`: pass through when an explicit amount
column exists or no date-like column is found, else melt. -/
def reshape (t : PTable) : PTable :=
  if hasCol t amountName then t
  else if (t.filter (fun c => reDate (nameStr c))).isEmpty then t
  else melt t

/-- `if "category" not in df.columns: df["category"] = df[first_col]`.
On a table with no columns, `df.columns[0]` raises `IndexError`
(`none`). -/
def ensureCategory (t : PTable) : Option PTable :=
  if hasCol t categoryName then some t
  else
    match t with
    | [] => none
    | c0 :: _ =>
      some (t ++ [⟨some categoryName, (List.range (nrows t)).map (fun i => cellAt c0 i)⟩])

/-- The value-cleaning pipeline of `tidy` on one already-stringified
cell: drop commas, turn non-breaking spaces into spaces, keep only
digits, dot and minus, and strip. -/
def cleanAmountStr (s : List Nat) : List Nat :=
  stripS (((s.filter (fun c => c ≠ 44)).map
      (fun c => if c = 160 then 32 else c)).filter
    (fun c => isDigitC c || c = 46 || c = 45))

/-- `pd.to_numeric(df["amount_crore_bdt"].astype(str)...cleaning...,
errors="coerce")` on one cell. -/
def cleanCellAmount (ops : Ext) (c : Cell) : Option ℚ :=
  ops.parseNum (cleanAmountStr (cellToStr ops c))

/-- `df[n] = series`: replace the first column named `n`, or append a
new column at the end. -/
def replaceFirstCol : PTable → List Nat → List Cell → PTable
  | [], _, _ => []
  | c :: rest, n, cs =>
    if c.name = some n then ⟨some n, cs⟩ :: rest
    else c :: replaceFirstCol rest n cs

def setCol (t : PTable) (n : List Nat) (cs : List Cell) : PTable :=
  if hasCol t n then replaceFirstCol t n cs else t ++ [⟨some n, cs⟩]

/-- Boolean-mask row filtering (`df = df[mask]`), applied to every
column. -/
def filterRows (t : PTable) (keep : Nat → Bool) : PTable :=
  t.map (fun c =>
    { c with
      cells := ((List.range (nrows t)).filterMap
        (fun i => if keep i then some (cellAt c i) else none)) })

/-- The date-parsing step of `tidy`: from a `month` column via
`pd.to_datetime(errors="coerce", dayfirst=True)`, else from a `year`
column via `to_datetime(str(year) + "-01-01", errors="coerce")`, else no
`date` column is created. -/
def dateStep (ops : Ext) (t : PTable) : PTable :=
  match findCol t (codes "month") with
  | some mcol =>
    setCol t (codes "date")
      ((List.range (nrows t)).map (fun i =>
        match toDateCoerce ops (cellAt mcol i) with
        | some d => Cell.date d
        | none => Cell.missing))
  | none =>
    match findCol t (codes "year") with
    | some ycol =>
      setCol t (codes "date")
        ((List.range (nrows t)).map (fun i =>
          match ops.parseYearStr (cellToStr ops (cellAt ycol i) ++ codes "-01-01") with
          | some d => Cell.date d
          | none => Cell.missing))
    | none => t

def markers : List (List Nat) :=
  [codes "cash", codes "p2p", codes "utility", codes "merchant",
   codes "government", codes "salary", codes "others"]

def isInfixC (pat s : List Nat) : Bool :=
  (List.range (s.length + 1)).any (fun i => startsWithC pat (s.drop i))

/-- `str.contains("cash|p2p|utility|merchant|government|salary|others",
case=False)`. -/
def containsMarker (s : List Nat) : Bool :=
  markers.any (fun m => isInfixC (lowerS m) (lowerS s))

/-- A cleaned output record of `tidy`: `{date, category, amount_bdt}`. -/
structure TidyRec where
  date : ℤ
  category : List Nat
  amount : ℚ
deriving DecidableEq, Repr

/-- One row of the final `df[["date", "category", "amount_bdt"]].dropna()`
projection: kept exactly when the date parsed, the category is a string
(always, after `astype(str)`) and the amount is numeric. -/
def projectRow (d c b : Cell) : Option TidyRec :=
  match d, c, b with
  | Cell.date dd, Cell.str cs, Cell.num q => some ⟨dd, cs, q⟩
  | _, _, _ => none

/-- The per-row parse results of the value cleaner on the amount
column. -/
def parsedAmounts (ops : Ext) (t3 : PTable) (acol : Col) : List (Option ℚ) :=
  (List.range (nrows t3)).map (fun i => cleanCellAmount ops (cellAt acol i))

/-- Numeric cleaning of the amount column followed by dropping the rows
whose amount failed to parse (`df = df[~df["amount_crore_bdt"].isna()]`). -/
def amountStage (ops : Ext) (t3 : PTable) (acol : Col) : PTable :=
  filterRows
    (setCol t3 amountName
      ((parsedAmounts ops t3 acol).map (fun o =>
        match o with
        | some q => Cell.num q
        | none => Cell.missing)))
    (fun i => ((parsedAmounts ops t3 acol).getD i none).isSome)

/-- `df["category"] = df["category"].astype(str).str.strip()` followed by
the marker row filter. -/
def catStage (ops : Ext) (t6 : PTable) (ccol : Col) : PTable :=
  filterRows
    (setCol t6 categoryName
      (((List.range (nrows t6)).map
        (fun i => stripS (cellToStr ops (cellAt ccol i)))).map Cell.str))
    (fun i =>
      containsMarker (((List.range (nrows t6)).map
        (fun i => stripS (cellToStr ops (cellAt ccol i)))).getD i []))

/-- `df["amount_bdt"] = df["amount_crore_bdt"] * 1e7` (crore → BDT). -/
def bdtStage (t8 : PTable) (acol2 : Col) : PTable :=
  setCol t8 (codes "amount_bdt")
    ((List.range (nrows t8)).map (fun i =>
      match cellAt acol2 i with
      | Cell.num q => Cell.num (q * 10000000)
      | c => c))

/-- The part of `tidy` after the amount column has been found: numeric
cleaning, NaN-row dropping, date parsing, category strip and marker
filter, crore→BDT conversion, and the final three-column projection with
`dropna()` (a row survives exactly when its date parsed, its category is
a string — always, after `astype(str)` — and its amount is numeric). -/
def tidyFrom (ops : Ext) (t3 : PTable) (acol : Col) : Except Unit (List TidyRec) :=
  match findCol (dateStep ops (amountStage ops t3 acol)) categoryName with
  | none => Except.error ()
  | some ccol =>
    match findCol (catStage ops (dateStep ops (amountStage ops t3 acol)) ccol)
        amountName with
    | none => Except.error ()
    | some acol2 =>
      let t9 := bdtStage (catStage ops (dateStep ops (amountStage ops t3 acol)) ccol) acol2
      match findCol t9 (codes "date"), findCol t9 categoryName,
          findCol t9 (codes "amount_bdt") with
      | some dcol, some ccol2, some bcol =>
        Except.ok ((List.range (nrows t9)).filterMap (fun i =>
          projectRow (cellAt dcol i) (cellAt ccol2 i) (cellAt bcol i)))
      | _, _, _ => Except.error ()

/-- `tidy` from `src/etl.py`.  An `Except.error ()` is an uncaught
pandas exception (`IndexError` on `df.columns[0]` of an empty frame, or
`KeyError` on a missing required column). -/
def tidy (ops : Ext) (t0 : PTable) : Except Unit (List TidyRec) :=
  let t2 := reshape (normalizeColumns t0)
  match ensureCategory t2 with
  | none => Except.error ()
  | some t3 =>
    match findCol t3 amountName with
    | none => Except.error ()
    | some acol => tidyFrom ops t3 acol

/-! ### Idempotence of the header normalizer -/

theorem rstripS_cons (c : Nat) (cs : List Nat) :
    rstripS (c :: cs) =
      if (rstripS cs).isEmpty && isSpaceC c then [] else c :: rstripS cs := rfl

theorem lowerC_idem (c : Nat) : lowerC (lowerC c) = lowerC c := by
  unfold lowerC
  by_cases h : 65 ≤ c ∧ c ≤ 90
  · rw [if_pos h, if_neg (by omega)]
  · rw [if_neg h, if_neg h]

theorem lowerS_idem (l : List Nat) : lowerS (lowerS l) = lowerS l := by
  unfold lowerS
  rw [List.map_map]
  exact List.map_congr_left (fun c _ => lowerC_idem c)

theorem sp_lowerC (c : Nat) : isSpaceC (lowerC c) = isSpaceC c := by
  unfold lowerC
  by_cases h : 65 ≤ c ∧ c ≤ 90
  · rw [if_pos h]
    have h1 : isSpaceC (c + 32) = false := by
      simp only [isSpaceC, Bool.or_eq_false_iff, decide_eq_false_iff_not]
      omega
    have h2 : isSpaceC c = false := by
      simp only [isSpaceC, Bool.or_eq_false_iff, decide_eq_false_iff_not]
      omega
    rw [h1, h2]
  · rw [if_neg h]

theorem lstrip_map_lower (l : List Nat) :
    List.dropWhile isSpaceC (lowerS l) = lowerS (List.dropWhile isSpaceC l) := by
  unfold lowerS
  have hfun : (isSpaceC ∘ lowerC) = isSpaceC := funext sp_lowerC
  rw [List.dropWhile_map, hfun]

theorem rstripS_map_lower : ∀ (l : List Nat), rstripS (lowerS l) = lowerS (rstripS l)
  | [] => rfl
  | c :: cs => by
    have ih := rstripS_map_lower cs
    show rstripS (lowerC c :: lowerS cs) = lowerS (rstripS (c :: cs))
    rw [rstripS_cons, rstripS_cons, ih, sp_lowerC]
    have hie : (lowerS (rstripS cs)).isEmpty = (rstripS cs).isEmpty := by
      cases rstripS cs <;> rfl
    rw [hie]
    by_cases hcond : ((rstripS cs).isEmpty && isSpaceC c) = true
    · rw [if_pos hcond, if_pos hcond]
      rfl
    · rw [if_neg hcond, if_neg hcond]
      rfl

theorem stripS_map_lower (l : List Nat) : stripS (lowerS l) = lowerS (stripS l) := by
  unfold stripS lstripS
  rw [lstrip_map_lower, rstripS_map_lower]

theorem dropWhile_isSpaceC_idem (l : List Nat) :
    List.dropWhile isSpaceC (List.dropWhile isSpaceC l) = List.dropWhile isSpaceC l := by
  induction l with
  | nil => rfl
  | cons c cs ih =>
    rw [List.dropWhile_cons]
    by_cases h : isSpaceC c = true
    · rw [if_pos h]
      exact ih
    · rw [if_neg h, List.dropWhile_cons, if_neg h]

theorem rstripS_idem : ∀ (l : List Nat), rstripS (rstripS l) = rstripS l
  | [] => rfl
  | c :: cs => by
    have ih := rstripS_idem cs
    rw [rstripS_cons]
    by_cases hcond : ((rstripS cs).isEmpty && isSpaceC c) = true
    · rw [if_pos hcond]
      rfl
    · rw [if_neg hcond, rstripS_cons, ih, if_neg hcond]

theorem lstrip_rstripS (l : List Nat) (h : List.dropWhile isSpaceC l = l) :
    List.dropWhile isSpaceC (rstripS l) = rstripS l := by
  cases l with
  | nil => rfl
  | cons c cs =>
    cases hcc : isSpaceC c with
    | true =>
      exfalso
      rw [List.dropWhile_cons, if_pos hcc] at h
      have hsub := (List.dropWhile_sublist (p := isSpaceC) (l := cs)).length_le
      have hlen := congrArg List.length h
      simp only [List.length_cons] at hlen
      omega
    | false =>
      rw [rstripS_cons]
      by_cases hcond : ((rstripS cs).isEmpty && isSpaceC c) = true
      · rw [if_pos hcond]
        rfl
      · rw [if_neg hcond, List.dropWhile_cons, if_neg (by rw [hcc]; simp)]

theorem stripS_idem (l : List Nat) : stripS (stripS l) = stripS l := by
  unfold stripS lstripS
  rw [lstrip_rstripS _ (dropWhile_isSpaceC_idem l), rstripS_idem]

/-- The image of `lower ∘ strip` consists of its fixed points. -/
theorem lsNorm_idem (y : List Nat) :
    lowerS (stripS (lowerS (stripS y))) = lowerS (stripS y) := by
  rw [stripS_map_lower, lowerS_idem, stripS_idem]

/-- Canonical names are stable: re-normalizing a header that survived
one pass of `normalize_columns` (already lower/stripped or a `CANON`
value) neither drops nor renames it. -/
theorem canon_stable (x : List Nat) (hbad : isBadName x = false)
    (hfix : lowerS (stripS x) = x) :
    isBadName (lowerS (stripS (canonGet x))) = false ∧
      canonGet (lowerS (stripS (canonGet x))) = canonGet x := by
  rcases hf : CANON.find? (fun p => p.1 = x) with _ | p
  · have hcx : canonGet x = x := by
      unfold canonGet
      rw [hf]
    rw [hcx, hfix, hcx]
    exact ⟨hbad, rfl⟩
  · have hmem : p ∈ CANON := List.mem_of_find?_eq_some hf
    have hcx : canonGet x = p.2 := by
      unfold canonGet
      rw [hf]
    rw [hcx]
    have hall : ∀ q ∈ CANON, isBadName (lowerS (stripS q.2)) = false ∧
        canonGet (lowerS (stripS q.2)) = q.2 := by decide
    exact hall p hmem

theorem bnot_true_of_eq_false (b : Bool) (h : b = false) : (!b) = true := by
  rw [h]
  rfl

theorem eq_false_of_bnot_true (b : Bool) (h : (!b) = true) : b = false := by
  cases b
  · rfl
  · exact absurd h (by decide)

theorem normalizeColumns_mem (t : PTable) (c : Col) (hc : c ∈ normalizeColumns t) :
    isBadName (normHeader c.name) = false ∧
    allMissingDrop c = false ∧
    canonGet (normHeader c.name) = nameStr c ∧
    c.name = some (nameStr c) := by
  unfold normalizeColumns at hc
  obtain ⟨d, hd, hcd⟩ := List.mem_map.mp hc
  obtain ⟨hd2, hdnan⟩ := List.mem_filter.mp hd
  obtain ⟨hd3, hdbad⟩ := List.mem_filter.mp hd2
  obtain ⟨e, _, hde⟩ := List.mem_map.mp hd3
  subst hde
  subst hcd
  have hbad : isBadName (normHeader e.name) = false := by
    simpa [nameStr] using hdbad
  have hfix : lowerS (stripS (normHeader e.name)) = normHeader e.name :=
    lsNorm_idem _
  obtain ⟨h1, h2⟩ := canon_stable (normHeader e.name) hbad hfix
  refine ⟨?_, ?_, ?_, rfl⟩
  · simpa [normHeader, nameStr] using h1
  · exact eq_false_of_bnot_true _ hdnan
  · simpa [normHeader, nameStr] using h2

theorem normalizeColumns_fix (u : PTable)
    (h : ∀ c ∈ u, isBadName (normHeader c.name) = false ∧
      allMissingDrop c = false ∧
      canonGet (normHeader c.name) = nameStr c ∧
      c.name = some (nameStr c)) :
    normalizeColumns u = u := by
  induction u with
  | nil => rfl
  | cons c cs ih =>
    obtain ⟨hbad, hnan, hcanon, hname⟩ := h c (List.mem_cons_self _ _)
    have ih2 := ih (fun d hd => h d (List.mem_cons_of_mem _ hd))
    unfold normalizeColumns at ih2 ⊢
    simp only [List.map_cons, List.filter_cons]
    rw [if_pos (show (!isBadName
        (nameStr ({ name := some (normHeader c.name), cells := c.cells } : Col))) = true from
      bnot_true_of_eq_false _ hbad)]
    rw [List.filter_cons]
    rw [if_pos (show (!allMissingDrop
        ({ name := some (normHeader c.name), cells := c.cells } : Col)) = true from
      bnot_true_of_eq_false _ hnan)]
    rw [List.map_cons, ih2]
    congr 1
    have h1 : canonGet
        (nameStr ({ name := some (normHeader c.name), cells := c.cells } : Col)) =
        nameStr c := hcanon
    rw [h1, ← hname]

/-- C8: `normalize_columns` is idempotent — applying it to its own
output changes nothing: headers already canonical stay unchanged, and no
further columns are dropped or renamed. -/
theorem C8_normalize_columns_idempotent (t : PTable) :
    normalizeColumns (normalizeColumns t) = normalizeColumns t :=
  normalizeColumns_fix _ (fun c hc => normalizeColumns_mem t c hc)

/-! ### C4: missing required columns crash `tidy` -/

theorem ensureCategory_names (t : PTable) (t3 : PTable) (h : ensureCategory t = some t3) :
    ∀ x ∈ t3, x ∈ t ∨ x.name = some categoryName := by
  unfold ensureCategory at h
  by_cases hc : hasCol t categoryName = true
  · rw [if_pos hc] at h
    injection h with h2
    subst h2
    exact fun x hx => Or.inl hx
  · rw [if_neg hc] at h
    cases t with
    | nil => cases h
    | cons c0 rest =>
      injection h with h2
      subst h2
      intro x hx
      rcases List.mem_append.mp hx with hx | hx
      · exact Or.inl hx
      · rw [List.mem_singleton] at hx
        subst hx
        exact Or.inr rfl

/-- C4, amended: when the normalized table has no explicit
`amount_crore_bdt` column and no date-like columns, `tidy` does not
return an empty table — it raises.  With no date-like columns the melt
is skipped, so `df["amount_crore_bdt"]` (or `df.columns[0]` on a
columnless frame) raises an uncaught `KeyError`/`IndexError` that
propagates out of the stage. -/
theorem C4_missing_columns_raise (ops : Ext) (t : PTable)
    (hamount : hasCol (normalizeColumns t) amountName = false)
    (hdate : (normalizeColumns t).all (fun c => !reDate (nameStr c)) = true) :
    tidy ops t = Except.error () := by
  have h1 : reshape (normalizeColumns t) = normalizeColumns t := by
    unfold reshape
    rw [hamount]
    rw [if_neg (by simp)]
    have hfil : (normalizeColumns t).filter (fun c => reDate (nameStr c)) = [] := by
      rw [List.filter_eq_nil_iff]
      intro a ha
      have h2 := (List.all_eq_true.mp hdate) a ha
      simp [eq_false_of_bnot_true _ h2]
    rw [hfil]
    rfl
  unfold tidy
  rw [h1]
  dsimp only
  cases hec : ensureCategory (normalizeColumns t) with
  | none => rfl
  | some t3 =>
    have hfind : findCol t3 amountName = none := by
      unfold findCol
      rw [List.find?_eq_none]
      intro x hx
      rcases ensureCategory_names _ _ hec x hx with hx2 | hx2
      · have h3 := (List.any_eq_false.mp hamount) x hx2
        simpa [hasCol] using h3
      · rw [hx2]
        simp only [decide_eq_true_eq]
        intro hcon
        have : categoryName = amountName := by
          injection hcon
        exact absurd this (by decide)
    dsimp only
    rw [hfind]

/-- A raw table with neither an amount column nor a date-like column. -/
def rawNoDate : PTable := [⟨some (codes "Fruit"), [Cell.str (codes "x")]⟩]

/-- A second such table, for the amended claim's witness. -/
def rawNoDate2 : PTable :=
  [⟨some (codes "Region"), [Cell.str (codes "a")]⟩,
   ⟨some (codes "Notes"), [Cell.missing]⟩]

/-- C4, counterexample: a concrete table with no amount column and no
date-like column on which `tidy` raises (`Except.error ()`) instead of
producing an empty output. -/
theorem C4_counterexample :
    hasCol (normalizeColumns rawNoDate) amountName = false ∧
    (normalizeColumns rawNoDate).all (fun c => !reDate (nameStr c)) = true ∧
    tidy extW rawNoDate = Except.error () :=
  ⟨by decide, by decide, by rfl⟩

/-- Witness for `C4_missing_columns_raise` at a concrete table. -/
theorem C4_missing_columns_raise_witness :
    tidy extW rawNoDate2 = Except.error () :=
  C4_missing_columns_raise extW rawNoDate2 (by decide) (by decide)

/-! ### C9: the crore → base-currency conversion multiplies parsed values by 1e7 -/

theorem eq_false_of_ne_true (b : Bool) (h : ¬(b = true)) : b = false := by
  cases b
  · rfl
  · exact absurd rfl h

theorem findCol_replaceFirst_same (t : PTable) (n : List Nat) (cs : List Cell)
    (h : hasCol t n = true) :
    findCol (replaceFirstCol t n cs) n = some ⟨some n, cs⟩ := by
  induction t with
  | nil => simp [hasCol] at h
  | cons c rest ih =>
    unfold replaceFirstCol
    by_cases hc : c.name = some n
    · rw [if_pos hc]
      exact List.find?_cons_of_pos _ (by simp)
    · rw [if_neg hc]
      show List.find? _ (c :: replaceFirstCol rest n cs) = _
      rw [List.find?_cons_of_neg _ (by simp [hc])]
      apply ih
      unfold hasCol at h
      rw [List.any_cons, Bool.or_eq_true] at h
      rcases h with h | h
      · exact absurd (by simpa using h) hc
      · exact h

theorem findCol_setCol_same (t : PTable) (n : List Nat) (cs : List Cell) :
    findCol (setCol t n cs) n = some ⟨some n, cs⟩ := by
  unfold setCol
  by_cases h : hasCol t n = true
  · rw [if_pos h]
    exact findCol_replaceFirst_same t n cs h
  · rw [if_neg h]
    unfold findCol
    rw [List.find?_append]
    have hnone : List.find? (fun c => c.name = some n) t = none := by
      rw [List.find?_eq_none]
      intro x hx
      have h2 := List.any_eq_false.mp (eq_false_of_ne_true _ h) x hx
      exact h2
    rw [hnone]
    show List.find? (fun c => c.name = some n) [(⟨some n, cs⟩ : Col)] = _
    exact List.find?_cons_of_pos _ (by simp)

theorem findCol_setCol_other (t : PTable) (n n' : List Nat) (cs : List Cell)
    (hne : n' ≠ n) : findCol (setCol t n cs) n' = findCol t n' := by
  unfold setCol
  by_cases h : hasCol t n = true
  · rw [if_pos h]
    clear h
    induction t with
    | nil => rfl
    | cons c rest ih =>
      unfold replaceFirstCol
      by_cases hc : c.name = some n
      · rw [if_pos hc]
        unfold findCol
        rw [List.find?_cons_of_neg _ (by
          simp only [decide_eq_true_eq]
          intro hcon
          injection hcon with h2
          exact hne h2.symm)]
        rw [List.find?_cons_of_neg _ (by
          rw [hc]
          simp only [decide_eq_true_eq]
          intro hcon
          injection hcon with h2
          exact hne h2.symm)]
      · rw [if_neg hc]
        unfold findCol
        by_cases hcn : c.name = some n'
        · rw [List.find?_cons_of_pos _ (by simp [hcn]),
            List.find?_cons_of_pos _ (by simp [hcn])]
        · rw [List.find?_cons_of_neg _ (by simp [hcn]),
            List.find?_cons_of_neg _ (by simp [hcn])]
          exact ih
  · rw [if_neg h]
    unfold findCol
    rw [List.find?_append]
    have hlast : List.find? (fun c => c.name = some n') [(⟨some n, cs⟩ : Col)] = none := by
      rw [List.find?_eq_none]
      intro x hx
      rw [List.mem_singleton] at hx
      subst hx
      simp only [decide_eq_true_eq]
      intro hcon
      injection hcon with h2
      exact hne h2.symm
    rw [hlast]
    cases List.find? (fun c => c.name = some n') t with
    | none => rfl
    | some y => rfl

theorem find?_map_pres {α : Type} (p : α → Bool) (g : α → α) (l : List α)
    (h : ∀ c, p (g c) = p c) :
    List.find? p (l.map g) = (List.find? p l).map g := by
  induction l with
  | nil => rfl
  | cons c rest ih =>
    rw [List.map_cons]
    by_cases hc : p c = true
    · rw [List.find?_cons_of_pos _ (by rw [h]; exact hc), List.find?_cons_of_pos _ hc]
      rfl
    · rw [List.find?_cons_of_neg _ (by rw [h]; exact hc), List.find?_cons_of_neg _ hc]
      exact ih

theorem findCol_filterRows (t : PTable) (keep : Nat → Bool) (n : List Nat) :
    findCol (filterRows t keep) n =
      (findCol t n).map (fun c =>
        { c with
          cells := ((List.range (nrows t)).filterMap
            (fun i => if keep i then some (cellAt c i) else none)) }) := by
  unfold filterRows findCol
  exact find?_map_pres _ _ _ (fun c => rfl)

theorem findCol_dateStep (ops : Ext) (t : PTable) (n : List Nat)
    (h1 : n ≠ codes "date") : findCol (dateStep ops t) n = findCol t n := by
  unfold dateStep
  cases findCol t (codes "month") with
  | some mcol => exact findCol_setCol_other _ _ _ _ h1
  | none =>
    cases findCol t (codes "year") with
    | some ycol => exact findCol_setCol_other _ _ _ _ h1
    | none => rfl

theorem mem_cells_of_cellAt (c : Col) (i : Nat) (y : Cell)
    (h : cellAt c i = y) (hy : y ≠ Cell.missing) : y ∈ c.cells := by
  unfold cellAt at h
  rw [List.getD_eq_getElem?_getD] at h
  cases hg : c.cells[i]? with
  | none =>
    rw [hg] at h
    exact absurd h.symm hy
  | some x =>
    rw [hg] at h
    simp only [Option.getD_some] at h
    rw [← h]
    exact List.getElem?_mem hg

theorem mem_maskCells (c : Col) (nr : Nat) (keep : Nat → Bool) (y : Cell)
    (h : y ∈ (List.range nr).filterMap
      (fun i => if keep i then some (cellAt c i) else none)) :
    ∃ i, cellAt c i = y := by
  rw [List.mem_filterMap] at h
  obtain ⟨i, _, hi⟩ := h
  by_cases hk : keep i = true
  · rw [if_pos hk] at hi
    exact ⟨i, by injection hi⟩
  · rw [if_neg hk] at hi
    cases hi

theorem cellAt_range_map (f : Nat → Cell) (nm : Option (List Nat)) (nr i : Nat) :
    cellAt ⟨nm, (List.range nr).map f⟩ i =
      if i < nr then f i else Cell.missing := by
  unfold cellAt
  rw [List.getD_eq_getElem?_getD]
  by_cases hi : i < nr
  · rw [if_pos hi]
    have hlt : i < ((List.range nr).map f).length := by
      simpa using hi
    rw [List.getElem?_eq_getElem hlt]
    simp [List.getElem_map, List.getElem_range]
  · rw [if_neg hi]
    have hnone : ((List.range nr).map f)[i]? = none := by
      rw [List.getElem?_eq_none]
      simpa using Nat.le_of_not_lt hi
    rw [hnone]
    rfl

theorem projectRow_amount (d c b : Cell) (r : TidyRec) (h : projectRow d c b = some r) :
    b = Cell.num r.amount := by
  unfold projectRow at h
  rcases d with s1 | q1 | d1 | _ <;> rcases c with s2 | q2 | d2 | _ <;>
    rcases b with s3 | q3 | d3 | _ <;>
    first
      | exact Option.noConfusion h
      | (injection h with h2; rw [← h2])

/-- Every numeric cell of the normalized-amount column originates from a
successful parse: walking back through the masking and renaming stages,
a numeric amount cell is `Cell.num q` with `q` in the image of
`cleanCellAmount`. -/
theorem C9_parse_source (ops : Ext) (t3 : PTable) (acol : Col) (q : ℚ)
    (hmem : Cell.num q ∈
      ((List.range (nrows t3)).map (fun i => cleanCellAmount ops (cellAt acol i))).map
        (fun o =>
          match o with
          | some qq => Cell.num qq
          | none => Cell.missing)) :
    ∃ s, ops.parseNum s = some q := by
  rw [List.mem_map] at hmem
  obtain ⟨o, ho, hoq⟩ := hmem
  cases o with
  | none => cases hoq
  | some qq =>
    have hq : qq = q := by injection hoq
    subst hq
    rw [List.mem_map] at ho
    obtain ⟨i, _, hi⟩ := ho
    unfold cleanCellAmount at hi
    exact ⟨cleanAmountStr (cellToStr ops (cellAt acol i)), hi⟩

/-- C9: every amount in `tidy`'s output is exactly a parsed crore value
multiplied by 10,000,000.  (In the rational model the multiplication is
exact; the float computation agrees within float tolerance.) -/
theorem C9_crore_conversion (ops : Ext) (t : PTable) (recs : List TidyRec)
    (h : tidy ops t = Except.ok recs) :
    ∀ r ∈ recs, ∃ s v, ops.parseNum s = some v ∧ r.amount = v * 10000000 := by
  unfold tidy at h
  dsimp only at h
  cases hec : ensureCategory (reshape (normalizeColumns t)) with
  | none =>
    rw [hec] at h
    exact Except.noConfusion h
  | some t3 =>
    rw [hec] at h
    dsimp only at h
    cases hac : findCol t3 amountName with
    | none =>
      rw [hac] at h
      exact Except.noConfusion h
    | some acol =>
      rw [hac] at h
      dsimp only at h
      clear hec hac
      unfold tidyFrom at h
      cases hcc : findCol (dateStep ops (amountStage ops t3 acol)) categoryName with
      | none =>
        rw [hcc] at h
        exact Except.noConfusion h
      | some ccol =>
        rw [hcc] at h
        dsimp only at h
        cases hca : findCol (catStage ops (dateStep ops (amountStage ops t3 acol)) ccol)
            amountName with
        | none =>
          rw [hca] at h
          exact Except.noConfusion h
        | some acol2 =>
          rw [hca] at h
          dsimp only at h
          cases hd : findCol
              (bdtStage (catStage ops (dateStep ops (amountStage ops t3 acol)) ccol) acol2)
              (codes "date") with
          | none =>
            rw [hd] at h
            exact Except.noConfusion h
          | some dcol =>
            rw [hd] at h
            cases hc2 : findCol
                (bdtStage (catStage ops (dateStep ops (amountStage ops t3 acol)) ccol) acol2)
                categoryName with
            | none =>
              rw [hc2] at h
              exact Except.noConfusion h
            | some ccol2 =>
              rw [hc2] at h
              cases hb2 : findCol
                  (bdtStage (catStage ops (dateStep ops (amountStage ops t3 acol)) ccol) acol2)
                  (codes "amount_bdt") with
              | none =>
                rw [hb2] at h
                exact Except.noConfusion h
              | some bcol =>
                rw [hb2] at h
                dsimp only at h
                injection h with hrecs
                subst hrecs
                intro r hr
                rw [List.mem_filterMap] at hr
                obtain ⟨i, _, hpr⟩ := hr
                have hb := projectRow_amount _ _ _ _ hpr
                unfold bdtStage at hb2
                rw [findCol_setCol_same] at hb2
                injection hb2 with hbcol
                rw [← hbcol] at hb
                rw [cellAt_range_map] at hb
                unfold catStage at hca
                rw [findCol_filterRows] at hca
                rw [findCol_setCol_other _ _ _ _
                  (by decide : amountName ≠ categoryName)] at hca
                rw [findCol_dateStep _ _ _ (by decide : amountName ≠ codes "date")] at hca
                unfold amountStage at hca
                rw [findCol_filterRows] at hca
                rw [findCol_setCol_same] at hca
                simp only [Option.map_some'] at hca
                injection hca with hacol2
                split at hb
                · rcases hcell : cellAt acol2 i with s1 | q | d1 | _ <;> rw [hcell] at hb
                  · exact Cell.noConfusion hb
                  · injection hb with hq
                    have hmem : Cell.num q ∈ acol2.cells :=
                      mem_cells_of_cellAt _ _ _ hcell (by simp)
                    rw [← hacol2] at hmem
                    obtain ⟨j, hj⟩ := mem_maskCells _ _ _ _ hmem
                    have hmem2 := mem_cells_of_cellAt _ _ _ hj (by simp)
                    obtain ⟨k, hk⟩ := mem_maskCells _ _ _ _ hmem2
                    have hmem3 := mem_cells_of_cellAt _ _ _ hk (by simp)
                    obtain ⟨s, hs⟩ := C9_parse_source ops t3 acol q hmem3
                    exact ⟨s, q, hs, hq.symm⟩
                  · exact Cell.noConfusion hb
                  · exact Cell.noConfusion hb
                · exact Cell.noConfusion hb

/-- A concrete `Ext` that parses the amount string `"5"` and the melted
month label `"jan-2024"`. -/
def extP : Ext where
  parseNum := fun s => if s = codes "5" then some 5 else none
  numRepr := fun _ => codes "0.0"
  dateRepr := fun _ => codes "1970-01-01"
  parseDateStr := fun s => if s = codes "jan-2024" then some 0 else none
  parseDateNum := fun _ => none
  parseYearStr := fun _ => none
  strictDateStr := fun _ => none
  strictDateNum := fun _ => none
  numOfDate := fun _ => none

/-- Scenario A of the spec: a wide table `["Particulars", "Jan-2024"]`
with one `Cash In` row. -/
def rawWide : PTable :=
  [⟨some (codes "Particulars"), [Cell.str (codes "Cash In")]⟩,
   ⟨some (codes "Jan-2024"), [Cell.str (codes "5")]⟩]

/-- Witness for `C9_crore_conversion`: the wide scenario-A table tidies
to one record whose amount is the parsed crore value times `1e7`. -/
theorem C9_crore_conversion_witness :
    ∃ s v, extP.parseNum s = some v ∧
      (⟨0, codes "Cash In", 5 * 10000000⟩ : TidyRec).amount = v * 10000000 :=
  C9_crore_conversion extP rawWide [⟨0, codes "Cash In", 5 * 10000000⟩] (by rfl)
    ⟨0, codes "Cash In", 5 * 10000000⟩ (List.mem_singleton.mpr rfl)

end MFS
